import Mathlib

/-!
Verification of the Live-Video-Motion-Extraction pipeline.

This file shallowly embeds the two per-pixel detection paths of the
repository (the WebGL2 fragment shaders driven by `MotionEngine`, and the
canvas-2D per-pixel loop in the `draw` callback), the morphology stage of
both paths, the output compositing step, and the orchestration state of
`MotionEngine`.  Floating-point arithmetic is idealised as real (or, where
no square root occurs, rational) arithmetic; `Uint8ClampedArray` pixels are
natural numbers in `[0, 255]`.
-/

namespace Motion

noncomputable section RealModel

/-! ## GLSL scalar builtins -/

/-- GLSL `mix(x, y, a) = x⬝(1−a) + y⬝a`. -/
def glslMix (x y a : ℝ) : ℝ := x * (1 - a) + y * a

/-- GLSL `clamp(x, lo, hi) = min (max x lo) hi`. -/
def glslClamp (x lo hi : ℝ) : ℝ := min (max x lo) hi

/-- GLSL `smoothstep(e0, e1, x)`: `t = clamp((x−e0)/(e1−e0), 0, 1); t⬝t⬝(3−2⬝t)`. -/
noncomputable def smoothstep (e0 e1 x : ℝ) : ℝ :=
  let t := glslClamp ((x - e0) / (e1 - e0)) 0 1
  t * t * (3 - 2 * t)

/-! ## Colors -/

/-- An RGB color sample (the `.rgb` part of a texel), real-valued. -/
structure RGB where
  r : ℝ
  g : ℝ
  b : ℝ

/-- GLSL `dot(c, vec3(0.299, 0.587, 0.114))` — the Rec.601 luma used by the
background-subtraction shader. -/
def lumaDot (c : RGB) : ℝ := 0.299 * c.r + 0.587 * c.g + 0.114 * c.b

/-- GLSL `dot(c, vec3(0.333))` — the approximate luma used for the variance
delta in the shader's color mode. -/
def avgDot (c : RGB) : ℝ := 0.333 * c.r + 0.333 * c.g + 0.333 * c.b

/-- GLSL `length(v)` for a `vec3`. -/
noncomputable def rgbLength (c : RGB) : ℝ := Real.sqrt (c.r ^ 2 + c.g ^ 2 + c.b ^ 2)

/-- Componentwise difference `current.rgb - mean.rgb`. -/
def rgbSub (c m : RGB) : RGB := ⟨c.r - m.r, c.g - m.g, c.b - m.b⟩

/-! ## The background-subtraction fragment shader

Embeds `backgroundSubtractionFragmentSource` per pixel.  Inputs: the mode
uniform `u_isColorMode`, the uniforms `u_adaptationRate`, `u_threshold`,
`u_minVariance`, the current video texel, the mean texel and the `.r`
channel of the variance texel (the only channel the shader ever reads). -/

/-- The distance computed by the shader: `length(current.rgb - mean.rgb)` in
color mode, `abs(luma(current) - mean.r)` in luminance mode. -/
noncomputable def shaderDist (isColorMode : Bool) (current mean : RGB) : ℝ :=
  if isColorMode then rgbLength (rgbSub current mean)
  else |lumaDot current - mean.r|

/-- The floored variance `max(variance.r, u_minVariance)`. -/
def shaderVar (varianceR minVariance : ℝ) : ℝ := max varianceR minVariance

/-- The adaptive edge `u_threshold * sqrt(var)`. -/
noncomputable def shaderEdge (threshold varianceR minVariance : ℝ) : ℝ :=
  threshold * Real.sqrt (shaderVar varianceR minVariance)

/-- The soft mask value `smoothstep(edge * 0.6, edge * 1.4, dist)`. -/
noncomputable def shaderSoft (threshold varianceR minVariance dist : ℝ) : ℝ :=
  smoothstep (shaderEdge threshold varianceR minVariance * 0.6)
    (shaderEdge threshold varianceR minVariance * 1.4) dist

/-- The three MRT outputs of the background-subtraction shader. -/
structure BgSubOut where
  newMean : RGB
  newVariance : ℝ
  soft : ℝ

/-- Per-pixel body of `backgroundSubtractionFragmentSource`: computes the
soft mask and the selectively-adapted model update, in both modes. -/
noncomputable def bgSubShader (isColorMode : Bool) (rate threshold minVariance : ℝ)
    (current mean : RGB) (variance : ℝ) : BgSubOut :=
  let dist := shaderDist isColorMode current mean
  let soft := shaderSoft threshold variance minVariance dist
  let bgWeight := 1 - soft
  let alpha := rate * bgWeight
  if isColorMode then
    let newMean : RGB :=
      ⟨glslMix mean.r current.r alpha, glslMix mean.g current.g alpha,
        glslMix mean.b current.b alpha⟩
    let lumDiff := avgDot current - avgDot mean
    ⟨newMean, glslMix variance (lumDiff * lumDiff) alpha, soft⟩
  else
    let curLum := lumaDot current
    let newMeanR := glslMix mean.r curLum alpha
    let d := curLum - newMeanR
    ⟨⟨newMeanR, mean.g, mean.b⟩, glslMix variance (d * d) alpha, soft⟩

/-- The uniform `u_minVariance` set by `MotionEngine.render`. -/
def gpuMinVariance : ℝ := 0.05

/-- The uniform `u_threshold` set by `MotionEngine.render`: the UI-facing
threshold divided by 10. -/
def gpuUniformThreshold (detectionThreshold : ℝ) : ℝ := detectionThreshold / 10.0

/-! ## Configuration (`MotionControls`) -/

/-- `detectionMode`. -/
inductive DetectionMode where
  | color
  | luminance
deriving DecidableEq

/-- `morphology` (the constructors `mopen`/`mclose` stand for the source's
string values `'open'`/`'close'`, which are Lean keywords). -/
inductive MorphologyMode where
  | none
  | mopen
  | mclose
deriving DecidableEq

/-- `effect`. -/
inductive Effect where
  | classic
  | colorBurn
  | electricTrails
  | heatmap
  | chromatic
deriving DecidableEq

/-- The `MotionControls` configuration snapshot consumed each tick. -/
structure MotionControls where
  detectionMode : DetectionMode
  detectionThreshold : ℝ
  processingResolution : ℝ
  noiseReduction : ℝ
  adaptationRate : ℝ
  morphology : MorphologyMode
  effect : Effect
  invert : Bool
  persistence : ℝ

/-! ## The CPU (canvas-2D) per-pixel detector

Embeds the per-pixel body of the `draw` callback of the canvas-2D app. -/

/-- `const minVariance = 25` in `draw`. -/
def cpuMinVariance : ℝ := 25

/-- `currentBrightness = (r + g + b) / 3`. -/
def cpuBrightness (c : RGB) : ℝ := (c.r + c.g + c.b) / 3

/-- CPU luminance-mode distance: `Math.abs(currentBrightness - mean)`. -/
def cpuLumDist (current : RGB) (mean : ℝ) : ℝ := |cpuBrightness current - mean|

/-- CPU color-mode distance:
`Math.sqrt((r-meanR)^2 + (g-meanG)^2 + (b-meanB)^2)`. -/
def cpuColorDist (current meanC : RGB) : ℝ :=
  Real.sqrt ((current.r - meanC.r) ^ 2 + (current.g - meanC.g) ^ 2 +
    (current.b - meanC.b) ^ 2)

/-- Result of one CPU luminance-mode pixel step: the (possibly updated)
model entries and the foreground decision. -/
structure CpuLumOut where
  mean : ℝ
  variance : ℝ
  isForeground : Bool

/-- One CPU pixel in luminance mode: hard threshold decision, and model
update only when the pixel is background. -/
def cpuLumStep (alpha threshold : ℝ) (current : RGB) (mean variance : ℝ) : CpuLumOut :=
  let currentBrightness := cpuBrightness current
  let diff := currentBrightness - mean
  if cpuLumDist current mean > threshold * Real.sqrt (max variance cpuMinVariance) then
    ⟨mean, variance, true⟩
  else
    ⟨(1 - alpha) * mean + alpha * currentBrightness,
      (1 - alpha) * variance + alpha * (diff * diff), false⟩

/-- Result of one CPU color-mode pixel step. -/
structure CpuColorOut where
  mean : RGB
  variance : ℝ
  isForeground : Bool

/-- One CPU pixel in color mode: Euclidean distance against the RGB mean,
hard threshold, and selective update using the brightness of the
pre-update mean for the variance delta. -/
def cpuColorStep (alpha threshold : ℝ) (current meanC : RGB) (variance : ℝ) : CpuColorOut :=
  if cpuColorDist current meanC > threshold * Real.sqrt (max variance cpuMinVariance) then
    ⟨meanC, variance, true⟩
  else
    let newMean : RGB :=
      ⟨(1 - alpha) * meanC.r + alpha * current.r,
        (1 - alpha) * meanC.g + alpha * current.g,
        (1 - alpha) * meanC.b + alpha * current.b⟩
    let currentBrightness := cpuBrightness current
    let meanBrightness := (meanC.r + meanC.g + meanC.b) / 3
    let diff := currentBrightness - meanBrightness
    ⟨newMean, (1 - alpha) * variance + alpha * (diff * diff), false⟩

/-! ## CPU background model lifecycle -/

/-- `const initialVariance = 100` in the seeding branch of `draw`. -/
def cpuInitialVariance : ℝ := 100

/-- The CPU background model: the flat `Float32Array` `mean` (3 entries per
pixel in color mode, 1 in luminance mode) and the per-pixel `variance`. -/
structure CpuBackgroundModel where
  mean : ℕ → ℝ
  variance : ℕ → ℝ

/-- The seeded `mean` array: in color mode entry `j*3+k` holds channel `k`
of frame pixel `j`; in luminance mode entry `j` holds the brightness of
frame pixel `j`. -/
def seedMean (mode : DetectionMode) (frame : ℕ → RGB) : ℕ → ℝ :=
  match mode with
  | DetectionMode.color => fun k =>
      if k % 3 = 0 then (frame (k / 3)).r
      else if k % 3 = 1 then (frame (k / 3)).g
      else (frame (k / 3)).b
  | DetectionMode.luminance => fun j => cpuBrightness (frame j)

/-- The background model built on the tick where
`backgroundModelData.current` is absent: mean from the current frame,
variance filled with `initialVariance = 100`. -/
def seedBackgroundModel (mode : DetectionMode) (frame : ℕ → RGB) : CpuBackgroundModel :=
  { mean := seedMean mode frame
    variance := fun _ => cpuInitialVariance }

/-- An 8-bit RGBA pixel of the motion `ImageData`. -/
structure RGBA8 where
  r : ℕ
  g : ℕ
  b : ℕ
  a : ℕ
deriving DecidableEq

/-- The motion-frame pixel written for a foreground/background decision:
`fg`/`bg` swap under `invert`, `colorBurn` uses the accent `[3,218,198]`
when not inverted, and background pixels get alpha 0 under
`electricTrails` (255 otherwise). -/
def cpuMotionPixel (c : MotionControls) (isFg : Bool) : RGBA8 :=
  if isFg then
    if c.effect = Effect.colorBurn ∧ c.invert = false then ⟨3, 218, 198, 255⟩
    else if c.invert then ⟨0, 0, 0, 255⟩
    else ⟨255, 255, 255, 255⟩
  else
    let bgc : ℕ := if c.invert then 255 else 0
    ⟨bgc, bgc, bgc, if c.effect = Effect.electricTrails then 0 else 255⟩

/-- What one CPU `draw` tick produces: the new background model and, when
the model already existed, the motion frame (`none` on the seeding tick,
which returns before the per-pixel loop). -/
structure CpuTickResult where
  model : CpuBackgroundModel
  motion : Option (ℕ → RGBA8)

/-- The model-seeding and per-pixel portion of one CPU `draw` tick, over
the processing-resolution frame (pixel index `j`). -/
def cpuDrawTick (c : MotionControls) (modelOpt : Option CpuBackgroundModel)
    (frame : ℕ → RGB) : CpuTickResult :=
  match modelOpt with
  | Option.none => ⟨seedBackgroundModel c.detectionMode frame, Option.none⟩
  | Option.some model =>
    match c.detectionMode with
    | DetectionMode.color =>
      let step := fun j =>
        cpuColorStep c.adaptationRate c.detectionThreshold (frame j)
          ⟨model.mean (j * 3), model.mean (j * 3 + 1), model.mean (j * 3 + 2)⟩
          (model.variance j)
      ⟨{ mean := fun k =>
            if k % 3 = 0 then (step (k / 3)).mean.r
            else if k % 3 = 1 then (step (k / 3)).mean.g
            else (step (k / 3)).mean.b
         variance := fun j => (step j).variance },
        Option.some fun j => cpuMotionPixel c (step j).isForeground⟩
    | DetectionMode.luminance =>
      let step := fun j =>
        cpuLumStep c.adaptationRate c.detectionThreshold (frame j)
          (model.mean j) (model.variance j)
      ⟨{ mean := fun j => (step j).mean
         variance := fun j => (step j).variance },
        Option.some fun j => cpuMotionPixel c (step j).isForeground⟩

/-! ## Output-buffer compositing (per pixel)

The CPU path prepares the motion canvas each tick with either a
`fillRect` of `rgba(0,0,0,1-persistence)` (electricTrails) or a
`clearRect`; the GPU path sets a clear color and clears, then draws the
output quad (with `SRC_ALPHA, ONE_MINUS_SRC_ALPHA` blending in the
persistence styles). -/

/-- A real-valued RGBA sample (the convention — premultiplied or not — is
stated at each compositing operation). -/
structure RGBA where
  r : ℝ
  g : ℝ
  b : ℝ
  a : ℝ

/-- The per-tick preparation of the motion canvas in the CPU path. -/
inductive CanvasPrep where
  | fadeBlack (alpha : ℝ)
  | clearAll

/-- Lines 230–235 of the CPU `draw`: under `electricTrails` the canvas is
faded with `rgba(0,0,0,1-persistence)`, otherwise it is cleared; this runs
before the background-model check, hence on every tick. -/
def cpuCanvasPrep (c : MotionControls) : CanvasPrep :=
  if c.effect = Effect.electricTrails then CanvasPrep.fadeBlack (1 - c.persistence)
  else CanvasPrep.clearAll

/-- Porter–Duff source-over compositing (premultiplied alpha), the default
canvas-2D composite operation used by `fillRect`. -/
def sourceOver (src dst : RGBA) : RGBA :=
  ⟨src.r + dst.r * (1 - src.a), src.g + dst.g * (1 - src.a),
    src.b + dst.b * (1 - src.a), src.a + dst.a * (1 - src.a)⟩

/-- The per-tick canvas preparation for `electricTrails` on the CPU path:
`fillRect` with `rgba(0, 0, 0, fade)` composited source-over onto the
previous output pixel. -/
def canvasFade (fade : ℝ) (dst : RGBA) : RGBA := sourceOver ⟨0, 0, 0, fade⟩ dst

/-- The per-tick canvas preparation for the non-persistence CPU styles:
`clearRect` resets every pixel to transparent black. -/
def canvasClearRect (_dst : RGBA) : RGBA := ⟨0, 0, 0, 0⟩

/-- `gl.clear(gl.COLOR_BUFFER_BIT)`: every pixel of the bound framebuffer
is replaced by the current clear color.  Per the GL specification a clear
is affected by the scissor test and write masks only; the blend function
does not apply to clears. -/
def glClearPixel (clearColor : RGBA) (_prev : RGBA) : RGBA := clearColor

/-- A fragment drawn with `gl.blendFunc(gl.SRC_ALPHA, gl.ONE_MINUS_SRC_ALPHA)`
over the destination (colors non-premultiplied, as the shader outputs). -/
def blendSrcAlpha (src dst : RGBA) : RGBA :=
  ⟨src.r * src.a + dst.r * (1 - src.a), src.g * src.a + dst.g * (1 - src.a),
    src.b * src.a + dst.b * (1 - src.a), src.a * src.a + dst.a * (1 - src.a)⟩

/-- One GPU output-pass pixel in a persistence style (`electricTrails` or
`heatmap`): blending is enabled, the clear color is set to
`(0, 0, 0, 1 - persistence)`, the color buffer is cleared, and then the
output fragment is drawn with blending. -/
def gpuPersistenceOutputPixel (persistence : ℝ) (frag prev : RGBA) : RGBA :=
  let fade := 1.0 - persistence
  blendSrcAlpha frag (glClearPixel ⟨0, 0, 0, fade⟩ prev)

/-- One GPU output-pass pixel in a non-persistence style: blending is
disabled, the buffer is cleared to opaque black, and the fragment then
overwrites the pixel. -/
def gpuPlainOutputPixel (frag prev : RGBA) : RGBA :=
  let _cleared := glClearPixel ⟨0, 0, 0, 1⟩ prev
  frag

end RealModel

/-! ## CPU morphology (`applyMorphology` over `Uint8ClampedArray` masks)

A mask is a grid of 8-bit samples (one channel of the monochrome mask);
`getPixel` treats out-of-bounds coordinates as 0. -/

/-- `getPixel`: out-of-bounds reads return 0, in-bounds reads return the
stored sample. -/
def getPixel (m : ℤ → ℤ → ℕ) (width height x y : ℤ) : ℕ :=
  if x < 0 ∨ width ≤ x ∨ y < 0 ∨ height ≤ y then 0 else m x y

/-- The 3×3 neighborhood offsets `(i, j)` in the CPU loop order
(`j` outer, `i` inner, each from −1 to 1). -/
def cpuOffsets : List (ℤ × ℤ) :=
  [(-1, -1), (0, -1), (1, -1), (-1, 0), (0, 0), (1, 0), (-1, 1), (0, 1), (1, 1)]

/-- The `erode` inner loops: running minimum over the 3×3 neighborhood,
starting from 255. -/
def erodePixel (input : ℤ → ℤ → ℕ) (w h x y : ℤ) : ℕ :=
  cpuOffsets.foldl (fun acc d => min acc (getPixel input w h (x + d.1) (y + d.2))) 255

/-- The `dilate` inner loops: running maximum over the 3×3 neighborhood,
starting from 0. -/
def dilatePixel (input : ℤ → ℤ → ℕ) (w h x y : ℤ) : ℕ :=
  cpuOffsets.foldl (fun acc d => max acc (getPixel input w h (x + d.1) (y + d.2))) 0

/-- `erode(input, output)` as a whole-grid transform. -/
def erodeGrid (input : ℤ → ℤ → ℕ) (w h : ℤ) : ℤ → ℤ → ℕ :=
  fun x y => erodePixel input w h x y

/-- `dilate(input, output)` as a whole-grid transform. -/
def dilateGrid (input : ℤ → ℤ → ℕ) (w h : ℤ) : ℤ → ℤ → ℕ :=
  fun x y => dilatePixel input w h x y

/-- `applyMorphology`: `'open'` erodes into the intermediate buffer then
dilates into the result; `'close'` dilates then erodes; any other type
leaves the data untouched. -/
def applyMorphology (m : ℤ → ℤ → ℕ) (w h : ℤ) (type : MorphologyMode) : ℤ → ℤ → ℕ :=
  match type with
  | MorphologyMode.mopen => dilateGrid (erodeGrid m w h) w h
  | MorphologyMode.mclose => erodeGrid (dilateGrid m w h) w h
  | MorphologyMode.none => m

/-- Number of foreground (non-zero) pixels of a `w × h` mask. -/
def fgCount (m : ℤ → ℤ → ℕ) (w h : ℤ) : ℕ :=
  ((Finset.Ico 0 w ×ˢ Finset.Ico 0 h).filter fun p => m p.1 p.2 ≠ 0).card

/-- A binary mask: every pixel fully background (0) or fully
foreground (255). -/
def BinaryMask (m : ℤ → ℤ → ℕ) : Prop := ∀ x y : ℤ, m x y = 0 ∨ m x y = 255

noncomputable section GpuModel

/-! ## GPU morphology (`morphologyFragmentSource`)

The mask textures are float-valued and sampled with `NEAREST` filtering
and `CLAMP_TO_EDGE` wrapping, so a sample at texel offset `(i, j)` from a
border pixel reads the nearest in-range texel. -/

/-- Index clamping performed by `CLAMP_TO_EDGE` sampling on an axis of
`n` texels. -/
def clampIdx (n i : ℤ) : ℤ := max 0 (min i (n - 1))

/-- A `NEAREST`/`CLAMP_TO_EDGE` texture read at integer texel
coordinates. -/
def texSampleClamped (tex : ℤ → ℤ → ℝ) (w h x y : ℤ) : ℝ :=
  tex (clampIdx w x) (clampIdx h y)

/-- The 3×3 neighborhood offsets `(i, j)` in the shader loop order
(`i` outer, `j` inner, each from −1 to 1). -/
def gpuOffsets : List (ℤ × ℤ) :=
  [(-1, -1), (-1, 0), (-1, 1), (0, -1), (0, 0), (0, 1), (1, -1), (1, 0), (1, 1)]

/-- Body of `morphologyFragmentSource` at one pixel: `val` starts at the
center sample and accumulates `min` (`u_type = 0`, erode) or `max`
(dilate) over the neighborhood samples. -/
def gpuMorphPixel (utype : ℕ) (tex : ℤ → ℤ → ℝ) (w h x y : ℤ) : ℝ :=
  gpuOffsets.foldl
    (fun val d =>
      let n := texSampleClamped tex w h (x + d.1) (y + d.2)
      if utype = 0 then min val n else max val n)
    (texSampleClamped tex w h x y)

/-- The GPU erode pass (`u_type = 0`). -/
def gpuErode (tex : ℤ → ℤ → ℝ) (w h : ℤ) : ℤ → ℤ → ℝ :=
  fun x y => gpuMorphPixel 0 tex w h x y

/-- The GPU dilate pass (`u_type = 1`). -/
def gpuDilate (tex : ℤ → ℤ → ℝ) (w h : ℤ) : ℤ → ℤ → ℝ :=
  fun x y => gpuMorphPixel 1 tex w h x y

/-- Number of foreground (non-zero) pixels of a `w × h` float mask. -/
def fgCountR (tex : ℤ → ℤ → ℝ) (w h : ℤ) : ℕ :=
  ((Finset.Ico 0 w ×ˢ Finset.Ico 0 h).filter fun p => tex p.1 p.2 ≠ 0).card

/-- A binary float mask: every pixel fully background (0) or fully
foreground (1). -/
def BinaryMaskR (tex : ℤ → ℤ → ℝ) : Prop := ∀ x y : ℤ, tex x y = 0 ∨ tex x y = 1

/-! ## `MotionEngine` orchestration state -/

/-- The mutable state of a `MotionEngine` instance: dimensions, the
initialization flag, the ping-pong index, and the textures (the video
texture and the mean/variance/mask ping-pong pairs, indexed 0/1). -/
structure EngineState where
  width : ℤ
  height : ℤ
  isInitialized : Bool
  pingPongIndex : ℕ
  videoTex : ℤ → ℤ → RGB
  meanTex : ℕ → ℤ → ℤ → RGB
  varianceTex : ℕ → ℤ → ℤ → ℝ
  maskTex : ℕ → ℤ → ℤ → ℝ

/-- `createTexturesAndFBOs`: every internal texture is (re)created by
`texImage2D(..., null)`, which per the WebGL specification fills the
texture with zeros. -/
def createTexturesAndFBOs (s : EngineState) : EngineState :=
  { s with
    videoTex := fun _ _ => ⟨0, 0, 0⟩
    meanTex := fun _ _ _ => ⟨0, 0, 0⟩
    varianceTex := fun _ _ _ => 0
    maskTex := fun _ _ _ => 0 }

/-- `MotionEngine.init`: stores the dimensions, creates programs, buffers
and textures, and sets `isInitialized`. -/
def engineInit (s : EngineState) (w h : ℤ) : EngineState :=
  { createTexturesAndFBOs { s with width := w, height := h } with
    isInitialized := true }

/-- `MotionEngine.render`: returns immediately if the engine is not
initialized; otherwise uploads the video frame, runs the
background-subtraction pass into the `nextIdx` texture set (with
`u_threshold = detectionThreshold / 10` and `u_minVariance = 0.05`), runs
the two-pass morphology ping-pong when requested, and advances the
ping-pong index. -/
def engineRender (s : EngineState) (video : ℤ → ℤ → RGB) (c : MotionControls) :
    EngineState :=
  if s.isInitialized = false then s
  else
    let idx := s.pingPongIndex
    let nextIdx := (idx + 1) % 2
    let videoTex := video
    let bg := fun (x y : ℤ) =>
      bgSubShader (c.detectionMode = DetectionMode.color) c.adaptationRate
        (gpuUniformThreshold c.detectionThreshold) gpuMinVariance
        (videoTex x y) (s.meanTex idx x y) (s.varianceTex idx x y)
    let meanTex := fun i =>
      if i = nextIdx then (fun x y => (bg x y).newMean) else s.meanTex i
    let varianceTex := fun i =>
      if i = nextIdx then (fun x y => (bg x y).newVariance) else s.varianceTex i
    let mask0 := fun x y => (bg x y).soft
    let maskMid :=
      match c.morphology with
      | MorphologyMode.none => s.maskTex idx
      | MorphologyMode.mopen => gpuErode mask0 s.width s.height
      | MorphologyMode.mclose => gpuDilate mask0 s.width s.height
    let maskNext :=
      match c.morphology with
      | MorphologyMode.none => mask0
      | MorphologyMode.mopen => gpuDilate (gpuErode mask0 s.width s.height) s.width s.height
      | MorphologyMode.mclose => gpuErode (gpuDilate mask0 s.width s.height) s.width s.height
    let maskTex := fun i =>
      if i = nextIdx then maskNext else if i = idx then maskMid else s.maskTex i
    { s with
      pingPongIndex := nextIdx
      videoTex := videoTex
      meanTex := meanTex
      varianceTex := varianceTex
      maskTex := maskTex }

/-- A concrete engine state used to evaluate the model at specific inputs. -/
def blankEngineState : EngineState :=
  { width := 0
    height := 0
    isInitialized := false
    pingPongIndex := 0
    videoTex := fun _ _ => ⟨0, 0, 0⟩
    meanTex := fun _ _ _ => ⟨0, 0, 0⟩
    varianceTex := fun _ _ _ => 0
    maskTex := fun _ _ _ => 0 }

end GpuModel

/-! # Helper lemmas -/

section Helpers

theorem smoothstep_left {e0 e1 x : ℝ} (h : e0 < e1) (hx : x ≤ e0) :
    smoothstep e0 e1 x = 0 := by
  have hd : (x - e0) / (e1 - e0) ≤ 0 :=
    div_nonpos_iff.mpr (Or.inr ⟨by linarith, by linarith⟩)
  simp only [smoothstep, glslClamp]
  rw [max_eq_right hd, min_eq_left (by norm_num : (0:ℝ) ≤ 1)]
  ring

theorem smoothstep_right {e0 e1 x : ℝ} (h : e0 < e1) (hx : e1 ≤ x) :
    smoothstep e0 e1 x = 1 := by
  have hd : 1 ≤ (x - e0) / (e1 - e0) :=
    (one_le_div (by linarith)).mpr (by linarith)
  simp only [smoothstep, glslClamp]
  rw [max_eq_left (by linarith), min_eq_right hd]
  ring

theorem sqrt_hundred : Real.sqrt 100 = 10 := by
  rw [show (100 : ℝ) = 10 ^ 2 by norm_num, Real.sqrt_sq (by norm_num : (0:ℝ) ≤ 10)]

theorem foldl_min_le_init {α : Type} [LinearOrder α] (l : List α) (init : α) :
    l.foldl min init ≤ init := by
  induction l generalizing init with
  | nil => simp
  | cons a t ih =>
    simpa using le_trans (ih (min init a)) (min_le_left _ _)

theorem foldl_min_le_of_mem {α : Type} [LinearOrder α] {l : List α} {a : α}
    (init : α) (ha : a ∈ l) : l.foldl min init ≤ a := by
  induction l generalizing init with
  | nil => cases ha
  | cons b t ih =>
    rcases List.mem_cons.mp ha with h | h
    · subst h
      simpa using le_trans (foldl_min_le_init t (min init a)) (min_le_right _ _)
    · simpa using ih (min init b) h

theorem le_foldl_min {α : Type} [LinearOrder α] {l : List α} {c : α}
    (init : α) (hi : c ≤ init) (hl : ∀ a ∈ l, c ≤ a) : c ≤ l.foldl min init := by
  induction l generalizing init with
  | nil => simpa using hi
  | cons b t ih =>
    simp only [List.foldl_cons]
    exact ih (min init b) (le_min hi (hl b (List.mem_cons_self b _)))
      (fun a ha => hl a (List.mem_cons_of_mem _ ha))

theorem foldl_min_mem {α : Type} [LinearOrder α] (l : List α) (init : α) :
    l.foldl min init = init ∨ l.foldl min init ∈ l := by
  induction l generalizing init with
  | nil => simp
  | cons b t ih =>
    simp only [List.foldl_cons]
    rcases ih (min init b) with h | h
    · rcases min_choice init b with hm | hm
      · exact Or.inl (h.trans hm)
      · exact Or.inr (List.mem_cons.mpr (Or.inl (h.trans hm)))
    · exact Or.inr (List.mem_cons_of_mem _ h)

theorem init_le_foldl_max {α : Type} [LinearOrder α] (l : List α) (init : α) :
    init ≤ l.foldl max init := by
  induction l generalizing init with
  | nil => simp
  | cons a t ih =>
    simpa using le_trans (le_max_left init a) (ih (max init a))

theorem le_foldl_max_of_mem {α : Type} [LinearOrder α] {l : List α} {a : α}
    (init : α) (ha : a ∈ l) : a ≤ l.foldl max init := by
  induction l generalizing init with
  | nil => cases ha
  | cons b t ih =>
    rcases List.mem_cons.mp ha with h | h
    · subst h
      simpa using le_trans (le_max_right init a) (init_le_foldl_max t (max init a))
    · simpa using ih (max init b) h

theorem foldl_max_le {α : Type} [LinearOrder α] {l : List α} {c : α}
    (init : α) (hi : init ≤ c) (hl : ∀ a ∈ l, a ≤ c) : l.foldl max init ≤ c := by
  induction l generalizing init with
  | nil => simpa using hi
  | cons b t ih =>
    simp only [List.foldl_cons]
    exact ih (max init b) (max_le hi (hl b (List.mem_cons_self b _)))
      (fun a ha => hl a (List.mem_cons_of_mem _ ha))

theorem foldl_max_mem {α : Type} [LinearOrder α] (l : List α) (init : α) :
    l.foldl max init = init ∨ l.foldl max init ∈ l := by
  induction l generalizing init with
  | nil => simp
  | cons b t ih =>
    simp only [List.foldl_cons]
    rcases ih (max init b) with h | h
    · rcases max_choice init b with hm | hm
      · exact Or.inl (h.trans hm)
      · exact Or.inr (List.mem_cons.mpr (Or.inl (h.trans hm)))
    · exact Or.inr (List.mem_cons_of_mem _ h)

end Helpers

/-! # Claim C4 -/

/-- Claim C4: a pixel whose motion score is 1 leaves the background model
unchanged in that tick, because the GPU update weight
`u_adaptationRate * (1 - soft)` vanishes; in the CPU path, any pixel
classified foreground skips the model update entirely, in both modes. -/
theorem score_one_freezes_model :
    (∀ (mode : Bool) (rate t mv : ℝ) (current mean : RGB) (variance : ℝ),
      (bgSubShader mode rate t mv current mean variance).soft = 1 →
      (bgSubShader mode rate t mv current mean variance).newMean = mean ∧
      (bgSubShader mode rate t mv current mean variance).newVariance = variance) ∧
    (∀ (alpha t : ℝ) (current : RGB) (mean variance : ℝ),
      (cpuLumStep alpha t current mean variance).isForeground = true →
      (cpuLumStep alpha t current mean variance).mean = mean ∧
      (cpuLumStep alpha t current mean variance).variance = variance) ∧
    (∀ (alpha t : ℝ) (current meanC : RGB) (variance : ℝ),
      (cpuColorStep alpha t current meanC variance).isForeground = true →
      (cpuColorStep alpha t current meanC variance).mean = meanC ∧
      (cpuColorStep alpha t current meanC variance).variance = variance) := by
  refine ⟨fun mode rate t mv current mean variance h => ?_,
    fun alpha t current mean variance h => ?_,
    fun alpha t current meanC variance h => ?_⟩
  · obtain ⟨mr, mg, mb⟩ := mean
    cases mode <;>
      simp only [bgSubShader, Bool.false_eq_true, if_false, reduceIte] at h ⊢ <;>
      rw [h] <;> constructor <;> simp [glslMix]
  · simp only [cpuLumStep] at h ⊢
    split_ifs at h ⊢
    exact ⟨rfl, rfl⟩
  · simp only [cpuColorStep] at h ⊢
    split_ifs at h ⊢
    exact ⟨rfl, rfl⟩

/-- Witness for C4 at concrete inputs: a GPU luminance pixel with
`dist = 1 ≥ 1.4·edge` (score exactly 1) keeps mean and variance, and
foreground CPU pixels in both modes keep their variance. -/
theorem score_one_freezes_model_witness :
    (bgSubShader false (1/2) (1/20) (1/20) ⟨1, 1, 1⟩ ⟨0, 0, 0⟩ 100).soft = 1 ∧
    (bgSubShader false (1/2) (1/20) (1/20) ⟨1, 1, 1⟩ ⟨0, 0, 0⟩ 100).newMean = ⟨0, 0, 0⟩ ∧
    (bgSubShader false (1/2) (1/20) (1/20) ⟨1, 1, 1⟩ ⟨0, 0, 0⟩ 100).newVariance = 100 ∧
    (cpuLumStep (1/2) 1 ⟨30, 30, 30⟩ 0 100).variance = 100 ∧
    (cpuColorStep (1/2) 1 ⟨30, 0, 0⟩ ⟨0, 0, 0⟩ 100).variance = 100 := by
  have hedge : shaderEdge (1/20) 100 (1/20) = 1/2 := by
    rw [shaderEdge, shaderVar, max_eq_left (by norm_num : (1/20 : ℝ) ≤ 100),
      sqrt_hundred]
    norm_num
  have hdist : shaderDist false ⟨1, 1, 1⟩ ⟨0, 0, 0⟩ = 1 := by
    rw [shaderDist]
    simp only [Bool.false_eq_true, if_false, lumaDot]
    rw [show (0.299 * (1:ℝ) + 0.587 * 1 + 0.114 * 1) - (RGB.mk 0 0 0).r = 1 by norm_num]
    exact abs_one
  have hsoft : (bgSubShader false (1/2) (1/20) (1/20) ⟨1, 1, 1⟩ ⟨0, 0, 0⟩ 100).soft = 1 := by
    simp only [bgSubShader, Bool.false_eq_true, if_false, reduceIte]
    rw [shaderSoft, hedge, hdist]
    exact smoothstep_right (by norm_num) (by norm_num)
  have hsqrt : Real.sqrt (max 100 cpuMinVariance) = 10 := by
    rw [cpuMinVariance, max_eq_left (by norm_num : (25:ℝ) ≤ 100), sqrt_hundred]
  have hfgl : (cpuLumStep (1/2) 1 ⟨30, 30, 30⟩ 0 100).isForeground = true := by
    rw [cpuLumStep]
    rw [if_pos]
    rw [cpuLumDist, cpuBrightness, hsqrt]
    rw [show ((30:ℝ) + 30 + 30) / 3 - 0 = 30 by norm_num]
    rw [abs_of_nonneg (by norm_num : (0:ℝ) ≤ 30)]
    norm_num
  have hfgc : (cpuColorStep (1/2) 1 ⟨30, 0, 0⟩ ⟨0, 0, 0⟩ 100).isForeground = true := by
    rw [cpuColorStep]
    rw [if_pos]
    rw [cpuColorDist, hsqrt]
    rw [show ((RGB.mk 30 0 0).r - (RGB.mk 0 0 0).r) ^ 2 +
      ((RGB.mk 30 0 0).g - (RGB.mk 0 0 0).g) ^ 2 +
      ((RGB.mk 30 0 0).b - (RGB.mk 0 0 0).b) ^ 2 = 30 ^ 2 by norm_num]
    rw [Real.sqrt_sq (by norm_num : (0:ℝ) ≤ 30)]
    norm_num
  exact ⟨hsoft, (score_one_freezes_model.1 false _ _ _ _ _ _ hsoft).1,
    (score_one_freezes_model.1 false _ _ _ _ _ _ hsoft).2,
    (score_one_freezes_model.2.1 _ _ _ _ _ hfgl).2,
    (score_one_freezes_model.2.2 _ _ _ _ _ hfgc).2⟩

/-! # Claim C9 -/

/-- Claim C9: if `MotionEngine.render` is called before `init` (the
`isInitialized` flag is false), it returns immediately and the whole
engine state — video texture, model textures, mask textures and ping-pong
index — is left unchanged. -/
theorem render_before_init_is_noop (s : EngineState) (video : ℤ → ℤ → RGB)
    (c : MotionControls) (h : s.isInitialized = false) :
    engineRender s video c = s := by
  simp [engineRender, h]

/-- Witness for C9: rendering on a concrete uninitialized engine state
returns that state unchanged. -/
theorem render_before_init_is_noop_witness :
    blankEngineState.isInitialized = false ∧
      engineRender blankEngineState (fun _ _ => ⟨1, 1, 1⟩)
        ⟨DetectionMode.color, 15, 1, 0, 0.05, MorphologyMode.mopen,
          Effect.classic, false, 0.85⟩ = blankEngineState :=
  ⟨rfl, render_before_init_is_noop _ _ _ rfl⟩

/-! # Claim C10 -/

/-- Claim C10: on the CPU tick where the background model is absent, `draw`
only seeds the model from the current frame and returns before the
per-pixel loop: no motion frame is produced, and the per-tick canvas
preparation (fade for `electricTrails`, clear otherwise) is the only
effect on the output canvas, exactly as on every other tick. -/
theorem cpu_first_tick_after_reset (c : MotionControls) (frame : ℕ → RGB) :
    (cpuDrawTick c Option.none frame).motion = Option.none ∧
    (cpuDrawTick c Option.none frame).model =
      seedBackgroundModel c.detectionMode frame ∧
    cpuCanvasPrep c =
      (if c.effect = Effect.electricTrails then CanvasPrep.fadeBlack (1 - c.persistence)
        else CanvasPrep.clearAll) :=
  ⟨rfl, rfl, rfl⟩

/-! # Claim C2 -/

/-- Counterexample to C2: in the GPU path, `createTexturesAndFBOs` (run by
`init` and on every resize) creates the mean and variance textures from
`texImage2D(..., null)`, which zero-fills them: the variance of every
pixel starts at 0, not at the constant 100, and the mean starts at black,
independent of the first observed frame. -/
theorem gpu_reset_not_seeded_cex :
    (engineInit blankEngineState 640 360).varianceTex 0 0 0 = 0 ∧
      (0 : ℝ) ≠ 100 := by
  refine ⟨rfl, by norm_num⟩

/-- Claim C2, amended: on a CPU-path reset, every pixel's mean is seeded
from the first observed frame (the RGB triple in color mode, the
brightness `(r+g+b)/3` in luminance mode) and every variance entry is
seeded to the constant 100; in the GPU path, however, the (re)created
mean and variance textures are zero-filled rather than seeded from the
first frame. -/
theorem background_model_reset_values :
    (∀ (mode : DetectionMode) (frame : ℕ → RGB) (j : ℕ),
      (seedBackgroundModel mode frame).variance j = 100) ∧
    (∀ (frame : ℕ → RGB) (j : ℕ),
      seedMean DetectionMode.color frame (j * 3) = (frame j).r ∧
      seedMean DetectionMode.color frame (j * 3 + 1) = (frame j).g ∧
      seedMean DetectionMode.color frame (j * 3 + 2) = (frame j).b ∧
      seedMean DetectionMode.luminance frame j =
        ((frame j).r + (frame j).g + (frame j).b) / 3) ∧
    (∀ (s : EngineState) (w h : ℤ) (i : ℕ) (x y : ℤ),
      (engineInit s w h).meanTex i x y = ⟨0, 0, 0⟩ ∧
      (engineInit s w h).varianceTex i x y = 0) := by
  refine ⟨fun mode frame j => rfl, fun frame j => ?_, fun s w h i x y => ⟨rfl, rfl⟩⟩
  have h0 : (j * 3) % 3 = 0 ∧ (j * 3) / 3 = j := by omega
  have h1 : ¬(j * 3 + 1) % 3 = 0 ∧ (j * 3 + 1) % 3 = 1 ∧ (j * 3 + 1) / 3 = j := by omega
  have h2 : ¬(j * 3 + 2) % 3 = 0 ∧ ¬(j * 3 + 2) % 3 = 1 ∧ (j * 3 + 2) / 3 = j := by
    omega
  refine ⟨?_, ?_, ?_, rfl⟩
  · simp only [seedMean, if_pos h0.1, h0.2]
  · simp only [seedMean, if_neg h1.1, if_pos h1.2.1, h1.2.2]
  · simp only [seedMean, if_neg h2.1, if_neg h2.2.1, h2.2.2]

/-! # Claim C7 -/

/-- Claim C7: the adaptive edge is `threshold * sqrt(max(variance,
minVariance))`; the UI-facing threshold is divided by 10 before reaching
the shader (the uniform set by `render`) while the CPU loop uses
`controls.detectionThreshold` directly; and the GPU soft score is
`smoothstep(0.6*edge, 1.4*edge, dist)`, equal to 0 for `dist ≤ 0.6*edge`
and to 1 for `dist ≥ 1.4*edge`. -/
theorem adaptive_edge_soft_score :
    (∀ (threshold varianceR minVariance : ℝ),
      shaderEdge threshold varianceR minVariance =
        threshold * Real.sqrt (max varianceR minVariance)) ∧
    (∀ (s : EngineState) (video : ℤ → ℤ → RGB) (c : MotionControls) (x y : ℤ),
      s.isInitialized = true → c.morphology = MorphologyMode.none →
      (engineRender s video c).maskTex ((s.pingPongIndex + 1) % 2) x y =
        (bgSubShader (c.detectionMode = DetectionMode.color) c.adaptationRate
          (c.detectionThreshold / 10) gpuMinVariance (video x y)
          (s.meanTex s.pingPongIndex x y)
          (s.varianceTex s.pingPongIndex x y)).soft) ∧
    (∀ (c : MotionControls) (model : CpuBackgroundModel) (frame : ℕ → RGB) (j : ℕ),
      c.detectionMode = DetectionMode.luminance →
      (cpuDrawTick c (Option.some model) frame).model.variance j =
        (cpuLumStep c.adaptationRate c.detectionThreshold (frame j) (model.mean j)
          (model.variance j)).variance) ∧
    (∀ (mode : Bool) (rate dt mv : ℝ) (current mean : RGB) (variance : ℝ),
      (bgSubShader mode rate (gpuUniformThreshold dt) mv current mean variance).soft =
        smoothstep (0.6 * shaderEdge (dt / 10) variance mv)
          (1.4 * shaderEdge (dt / 10) variance mv)
          (shaderDist mode current mean)) ∧
    (∀ (threshold varianceR minVariance dist : ℝ),
      0 < shaderEdge threshold varianceR minVariance →
      (dist ≤ 0.6 * shaderEdge threshold varianceR minVariance →
        shaderSoft threshold varianceR minVariance dist = 0) ∧
      (1.4 * shaderEdge threshold varianceR minVariance ≤ dist →
        shaderSoft threshold varianceR minVariance dist = 1)) := by
  refine ⟨fun threshold varianceR minVariance => rfl,
    fun s video c x y hinit hmorph => ?_,
    fun c model frame j hmode => ?_,
    fun mode rate dt mv current mean variance => ?_,
    fun threshold varianceR minVariance dist hpos => ⟨fun hle => ?_, fun hge => ?_⟩⟩
  · simp only [engineRender, hinit, hmorph, Bool.true_eq_false, if_false, if_true,
      reduceIte, if_pos]
    have h10 : gpuUniformThreshold c.detectionThreshold = c.detectionThreshold / 10 := by
      rw [gpuUniformThreshold]; norm_num
    rw [h10]
  · simp only [cpuDrawTick, hmode]
  · cases mode <;>
      simp only [bgSubShader, Bool.false_eq_true, if_false, reduceIte, shaderSoft] <;>
      rw [show gpuUniformThreshold dt = dt / 10 by rw [gpuUniformThreshold]; norm_num] <;>
      rw [mul_comm (shaderEdge (dt / 10) variance mv) 0.6,
        mul_comm (shaderEdge (dt / 10) variance mv) 1.4]
  · rw [shaderSoft]
    exact smoothstep_left (by linarith) (by linarith [hle])
  · rw [shaderSoft]
    exact smoothstep_right (by linarith) (by linarith [hge])

/-- Witness for C7: with UI threshold 10 (shader threshold 1), variance
100 and `minVariance = 0.05`, the edge is 10 and a pixel at distance 1
(≤ 0.6·10) scores exactly 0. -/
theorem adaptive_edge_soft_score_witness :
    shaderEdge 1 100 (1/20) = 10 ∧ shaderSoft 1 100 (1/20) 1 = 0 := by
  have hedge : shaderEdge 1 100 (1/20) = 10 := by
    rw [shaderEdge, shaderVar, max_eq_left (by norm_num : (1/20 : ℝ) ≤ 100),
      sqrt_hundred]
    norm_num
  refine ⟨hedge, (adaptive_edge_soft_score.2.2.2.2 1 100 (1/20) 1 ?_).1 ?_⟩
  · rw [hedge]; norm_num
  · rw [hedge]; norm_num

/-! # Claim C1 -/

/-- Counterexample to C1: in the GPU luminance mode, at `rate = 1/2`,
shader threshold 1, current pixel `(1,1,1)`, mean 0 and variance 100 the
score is 0 and the update weight is 1/2, but the shader blends in
`(luma − newMean)² = 1/4` (post-update mean), not `(luma − mean)² = 1`
(pre-update mean): the produced variance 50.125 differs from the claimed
`mix(100, 1, 1/2) = 50.5`. -/
theorem variance_premean_cex :
    (bgSubShader false (1/2) 1 (1/20) ⟨1, 1, 1⟩ ⟨0, 0, 0⟩ 100).newVariance ≠
      glslMix 100 ((lumaDot ⟨1, 1, 1⟩ - (0:ℝ)) * (lumaDot ⟨1, 1, 1⟩ - (0:ℝ)))
        ((1/2) * (1 - (bgSubShader false (1/2) 1 (1/20) ⟨1, 1, 1⟩ ⟨0, 0, 0⟩ 100).soft)) := by
  have hedge : shaderEdge 1 100 (1/20) = 10 := by
    rw [shaderEdge, shaderVar, max_eq_left (by norm_num : (1/20 : ℝ) ≤ 100),
      sqrt_hundred]
    norm_num
  have hdist : shaderDist false ⟨1, 1, 1⟩ ⟨0, 0, 0⟩ = 1 := by
    rw [shaderDist]
    simp only [Bool.false_eq_true, if_false, lumaDot]
    rw [show (0.299 * (1:ℝ) + 0.587 * 1 + 0.114 * 1) - (RGB.mk 0 0 0).r = 1 by norm_num]
    exact abs_one
  have hsoft : shaderSoft 1 100 (1/20) (shaderDist false ⟨1, 1, 1⟩ ⟨0, 0, 0⟩) = 0 := by
    rw [hdist, shaderSoft, hedge]
    exact smoothstep_left (by norm_num) (by norm_num)
  simp only [bgSubShader, Bool.false_eq_true, if_false, reduceIte]
  rw [hsoft]
  rw [show lumaDot ⟨1, 1, 1⟩ = 1 by rw [lumaDot]; norm_num]
  simp only [glslMix]
  norm_num

/-- Claim C1, amended: the variance delta is computed from the pre-update
mean in the GPU color mode (via the `vec3(0.333)` luma) and in both CPU
modes; the GPU luminance mode instead computes it from the *post-update*
mean (`d = curLum - newMean.r`). -/
theorem variance_update_mean_usage :
    (∀ (rate t mv : ℝ) (current mean : RGB) (variance : ℝ),
      (bgSubShader true rate t mv current mean variance).newVariance =
        glslMix variance
          ((avgDot current - avgDot mean) * (avgDot current - avgDot mean))
          (rate * (1 - (bgSubShader true rate t mv current mean variance).soft))) ∧
    (∀ (rate t mv : ℝ) (current mean : RGB) (variance : ℝ),
      (bgSubShader false rate t mv current mean variance).newVariance =
        glslMix variance
          ((lumaDot current -
              (bgSubShader false rate t mv current mean variance).newMean.r) *
            (lumaDot current -
              (bgSubShader false rate t mv current mean variance).newMean.r))
          (rate * (1 - (bgSubShader false rate t mv current mean variance).soft))) ∧
    (∀ (alpha t : ℝ) (current : RGB) (mean variance : ℝ),
      (cpuLumStep alpha t current mean variance).isForeground = false →
      (cpuLumStep alpha t current mean variance).variance =
        (1 - alpha) * variance +
          alpha * ((cpuBrightness current - mean) * (cpuBrightness current - mean))) ∧
    (∀ (alpha t : ℝ) (current meanC : RGB) (variance : ℝ),
      (cpuColorStep alpha t current meanC variance).isForeground = false →
      (cpuColorStep alpha t current meanC variance).variance =
        (1 - alpha) * variance +
          alpha * ((cpuBrightness current - (meanC.r + meanC.g + meanC.b) / 3) *
            (cpuBrightness current - (meanC.r + meanC.g + meanC.b) / 3))) := by
  refine ⟨fun rate t mv current mean variance => by simp [bgSubShader],
    fun rate t mv current mean variance => by simp [bgSubShader],
    fun alpha t current mean variance h => ?_,
    fun alpha t current meanC variance h => ?_⟩
  · simp only [cpuLumStep] at h ⊢
    split_ifs at h ⊢
    rfl
  · simp only [cpuColorStep] at h ⊢
    split_ifs at h ⊢
    rfl

/-- Witness for C1 (amended) at a concrete background CPU pixel: with
`alpha = 1/2`, threshold 1, a black pixel over mean 0 and variance 100
the pixel is background and the variance is updated with the pre-update
delta (which is 0 here). -/
theorem variance_update_mean_usage_witness :
    (cpuLumStep (1/2) 1 ⟨0, 0, 0⟩ 0 100).isForeground = false ∧
    (cpuLumStep (1/2) 1 ⟨0, 0, 0⟩ 0 100).variance =
      (1 - 1/2) * 100 +
        (1/2) * ((cpuBrightness ⟨0, 0, 0⟩ - 0) * (cpuBrightness ⟨0, 0, 0⟩ - 0)) := by
  have hbg : (cpuLumStep (1/2) 1 ⟨0, 0, 0⟩ 0 100).isForeground = false := by
    rw [cpuLumStep]
    rw [if_neg]
    rw [cpuLumDist, cpuBrightness]
    rw [show ((0:ℝ) + 0 + 0) / 3 - 0 = 0 by norm_num, abs_zero]
    intro hcon
    have : (0:ℝ) ≤ 1 * Real.sqrt (max 100 cpuMinVariance) := by positivity
    linarith
  exact ⟨hbg, variance_update_mean_usage.2.2.1 _ _ _ _ _ hbg⟩

/-! # Claim C6 -/

/-- Counterexample to C6: for the pure-red pixel `(255,0,0)` over mean 0
the CPU luminance distance is `(255+0+0)/3 = 85`, not the Rec.601 value
`|0.299·255 − 0| = 76.245` required by the claim. -/
theorem cpu_luma_not_rec601_cex :
    cpuLumDist ⟨255, 0, 0⟩ 0 ≠ |0.299 * 255 + 0.587 * 0 + 0.114 * 0 - (0:ℝ)| := by
  rw [cpuLumDist, cpuBrightness]
  rw [show ((RGB.mk 255 0 0).r + (RGB.mk 255 0 0).g + (RGB.mk 255 0 0).b) / 3 - 0
      = 85 by norm_num]
  rw [show 0.299 * (255:ℝ) + 0.587 * 0 + 0.114 * 0 - 0 = 76.245 by norm_num]
  rw [abs_of_nonneg (by norm_num : (0:ℝ) ≤ 85),
    abs_of_nonneg (by norm_num : (0:ℝ) ≤ 76.245)]
  norm_num

/-- Claim C6, amended: in luminance mode the GPU distance is
`|0.299·R + 0.587·G + 0.114·B − mean|` but the CPU distance uses the
plain average `(R+G+B)/3`; in color mode both paths use the Euclidean
distance between `current.rgb` and `mean.rgb`. -/
theorem detector_distance_metrics :
    (∀ current mean : RGB,
      shaderDist false current mean =
        |(0.299 * current.r + 0.587 * current.g + 0.114 * current.b) - mean.r|) ∧
    (∀ current mean : RGB,
      shaderDist true current mean =
        Real.sqrt ((current.r - mean.r) ^ 2 + (current.g - mean.g) ^ 2 +
          (current.b - mean.b) ^ 2)) ∧
    (∀ current meanC : RGB,
      cpuColorDist current meanC =
        Real.sqrt ((current.r - meanC.r) ^ 2 + (current.g - meanC.g) ^ 2 +
          (current.b - meanC.b) ^ 2)) ∧
    (∀ (current : RGB) (mean : ℝ),
      cpuLumDist current mean = |(current.r + current.g + current.b) / 3 - mean|) :=
  ⟨fun _ _ => rfl, fun _ _ => rfl, fun _ _ => rfl, fun _ _ => rfl⟩

/-! # Morphology lemmas -/

section MorphologyLemmas

theorem erodePixel_eq_foldl (input : ℤ → ℤ → ℕ) (w h x y : ℤ) :
    erodePixel input w h x y =
      (cpuOffsets.map fun d => getPixel input w h (x + d.1) (y + d.2)).foldl min 255 := by
  rw [erodePixel, List.foldl_map]

theorem dilatePixel_eq_foldl (input : ℤ → ℤ → ℕ) (w h x y : ℤ) :
    dilatePixel input w h x y =
      (cpuOffsets.map fun d => getPixel input w h (x + d.1) (y + d.2)).foldl max 0 := by
  rw [dilatePixel, List.foldl_map]

theorem gpuErode_eq_foldl (tex : ℤ → ℤ → ℝ) (w h x y : ℤ) :
    gpuErode tex w h x y =
      (gpuOffsets.map fun d => texSampleClamped tex w h (x + d.1) (y + d.2)).foldl min
        (texSampleClamped tex w h x y) := by
  rw [gpuErode, gpuMorphPixel, List.foldl_map]
  simp

theorem gpuDilate_eq_foldl (tex : ℤ → ℤ → ℝ) (w h x y : ℤ) :
    gpuDilate tex w h x y =
      (gpuOffsets.map fun d => texSampleClamped tex w h (x + d.1) (y + d.2)).foldl max
        (texSampleClamped tex w h x y) := by
  rw [gpuDilate, gpuMorphPixel, List.foldl_map]
  simp

theorem getPixel_le_255 {input : ℤ → ℤ → ℕ} (hb : ∀ a b, input a b ≤ 255)
    (w h x y : ℤ) : getPixel input w h x y ≤ 255 := by
  rw [getPixel]
  split_ifs
  · omega
  · exact hb x y

theorem cpuOffsets_neg_mem {d : ℤ × ℤ} (hd : d ∈ cpuOffsets) :
    (-d.1, -d.2) ∈ cpuOffsets := by
  fin_cases hd <;> decide

theorem cpu_open_le_pointwise (m : ℤ → ℤ → ℕ) (w h x y : ℤ) (hx : 0 ≤ x)
    (hxw : x < w) (hy : 0 ≤ y) (hyh : y < h) :
    applyMorphology m w h MorphologyMode.mopen x y ≤ m x y := by
  show dilatePixel (erodeGrid m w h) w h x y ≤ m x y
  rw [dilatePixel_eq_foldl]
  apply foldl_max_le
  · exact Nat.zero_le _
  · intro a ha
    obtain ⟨d, hd, rfl⟩ := List.mem_map.mp ha
    rw [getPixel]
    split_ifs with hoob
    · exact Nat.zero_le _
    · push_neg at hoob
      have hmem := cpuOffsets_neg_mem hd
      have hb : erodePixel m w h (x + d.1) (y + d.2) ≤
          getPixel m w h (x + d.1 + -d.1) (y + d.2 + -d.2) := by
        rw [erodePixel_eq_foldl]
        exact foldl_min_le_of_mem _ (List.mem_map_of_mem _ hmem)
      rw [show x + d.1 + -d.1 = x by ring, show y + d.2 + -d.2 = y by ring] at hb
      rw [getPixel, if_neg (by omega)] at hb
      exact hb

theorem fgCount_mono {f g : ℤ → ℤ → ℕ} {w h : ℤ}
    (hp : ∀ x y, 0 ≤ x → x < w → 0 ≤ y → y < h → f x y ≠ 0 → g x y ≠ 0) :
    fgCount f w h ≤ fgCount g w h := by
  apply Finset.card_le_card
  intro p hpf
  simp only [fgCount, Finset.mem_filter, Finset.mem_product, Finset.mem_Ico] at hpf ⊢
  exact ⟨hpf.1, hp p.1 p.2 hpf.1.1.1 hpf.1.1.2 hpf.1.2.1 hpf.1.2.2 hpf.2⟩

theorem fgCountR_mono {f g : ℤ → ℤ → ℝ} {w h : ℤ}
    (hp : ∀ x y, 0 ≤ x → x < w → 0 ≤ y → y < h → f x y ≠ 0 → g x y ≠ 0) :
    fgCountR f w h ≤ fgCountR g w h := by
  apply Finset.card_le_card
  intro p hpf
  simp only [fgCountR, Finset.mem_filter, Finset.mem_product, Finset.mem_Ico] at hpf ⊢
  exact ⟨hpf.1, hp p.1 p.2 hpf.1.1.1 hpf.1.1.2 hpf.1.2.1 hpf.1.2.2 hpf.2⟩

theorem clampIdx_self {n i : ℤ} (h0 : 0 ≤ i) (hn : i < n) : clampIdx n i = i := by
  rw [clampIdx]
  omega

theorem clampIdx_dist {n x δ : ℤ} (h0 : 0 ≤ x) (hn : x < n) (hd1 : -1 ≤ δ)
    (hd2 : δ ≤ 1) : -1 ≤ x - clampIdx n (x + δ) ∧ x - clampIdx n (x + δ) ≤ 1 := by
  rw [clampIdx]
  omega

theorem mem_gpuOffsets {a b : ℤ} (ha1 : -1 ≤ a) (ha2 : a ≤ 1) (hb1 : -1 ≤ b)
    (hb2 : b ≤ 1) : (a, b) ∈ gpuOffsets := by
  interval_cases a <;> interval_cases b <;> decide

theorem gpuOffsets_bounds {d : ℤ × ℤ} (hd : d ∈ gpuOffsets) :
    -1 ≤ d.1 ∧ d.1 ≤ 1 ∧ -1 ≤ d.2 ∧ d.2 ≤ 1 := by
  fin_cases hd <;> decide

theorem gpuErode_le_reach (tex : ℤ → ℤ → ℝ) (w h u v x y : ℤ) (hx : 0 ≤ x)
    (hxw : x < w) (hy : 0 ≤ y) (hyh : y < h) (hu1 : -1 ≤ x - u) (hu2 : x - u ≤ 1)
    (hv1 : -1 ≤ y - v) (hv2 : y - v ≤ 1) :
    gpuErode tex w h u v ≤ tex x y := by
  have hmem := mem_gpuOffsets hu1 hu2 hv1 hv2
  have hb : gpuErode tex w h u v ≤
      texSampleClamped tex w h (u + (x - u)) (v + (y - v)) := by
    rw [gpuErode_eq_foldl]
    exact foldl_min_le_of_mem _ (List.mem_map_of_mem _ hmem)
  rw [show u + (x - u) = x by ring, show v + (y - v) = y by ring] at hb
  rwa [texSampleClamped, clampIdx_self hx hxw, clampIdx_self hy hyh] at hb

theorem gpuDilate_ge_reach (tex : ℤ → ℤ → ℝ) (w h u v x y : ℤ) (hx : 0 ≤ x)
    (hxw : x < w) (hy : 0 ≤ y) (hyh : y < h) (hu1 : -1 ≤ x - u) (hu2 : x - u ≤ 1)
    (hv1 : -1 ≤ y - v) (hv2 : y - v ≤ 1) :
    tex x y ≤ gpuDilate tex w h u v := by
  have hmem := mem_gpuOffsets hu1 hu2 hv1 hv2
  have hb : texSampleClamped tex w h (u + (x - u)) (v + (y - v)) ≤
      gpuDilate tex w h u v := by
    rw [gpuDilate_eq_foldl]
    exact le_foldl_max_of_mem _ (List.mem_map_of_mem _ hmem)
  rw [show u + (x - u) = x by ring, show v + (y - v) = y by ring] at hb
  rwa [texSampleClamped, clampIdx_self hx hxw, clampIdx_self hy hyh] at hb

theorem gpu_open_le_pointwise (tex : ℤ → ℤ → ℝ) (w h x y : ℤ) (hx : 0 ≤ x)
    (hxw : x < w) (hy : 0 ≤ y) (hyh : y < h) :
    gpuDilate (gpuErode tex w h) w h x y ≤ tex x y := by
  rw [gpuDilate_eq_foldl]
  apply foldl_max_le
  · rw [texSampleClamped, clampIdx_self hx hxw, clampIdx_self hy hyh]
    exact gpuErode_le_reach tex w h x y x y hx hxw hy hyh (by omega) (by omega)
      (by omega) (by omega)
  · intro a ha
    obtain ⟨d, hd, rfl⟩ := List.mem_map.mp ha
    obtain ⟨hb1, hb2, hb3, hb4⟩ := gpuOffsets_bounds hd
    obtain ⟨hc1, hc2⟩ := clampIdx_dist hx hxw hb1 hb2 (n := w)
    obtain ⟨hc3, hc4⟩ := clampIdx_dist hy hyh hb3 hb4 (n := h)
    rw [texSampleClamped]
    exact gpuErode_le_reach tex w h _ _ x y hx hxw hy hyh hc1 hc2 hc3 hc4

theorem gpu_close_ge_pointwise (tex : ℤ → ℤ → ℝ) (w h x y : ℤ) (hx : 0 ≤ x)
    (hxw : x < w) (hy : 0 ≤ y) (hyh : y < h) :
    tex x y ≤ gpuErode (gpuDilate tex w h) w h x y := by
  rw [gpuErode_eq_foldl]
  apply le_foldl_min
  · rw [texSampleClamped, clampIdx_self hx hxw, clampIdx_self hy hyh]
    exact gpuDilate_ge_reach tex w h x y x y hx hxw hy hyh (by omega) (by omega)
      (by omega) (by omega)
  · intro a ha
    obtain ⟨d, hd, rfl⟩ := List.mem_map.mp ha
    obtain ⟨hb1, hb2, hb3, hb4⟩ := gpuOffsets_bounds hd
    obtain ⟨hc1, hc2⟩ := clampIdx_dist hx hxw hb1 hb2 (n := w)
    obtain ⟨hc3, hc4⟩ := clampIdx_dist hy hyh hb3 hb4 (n := h)
    rw [texSampleClamped]
    exact gpuDilate_ge_reach tex w h _ _ x y hx hxw hy hyh hc1 hc2 hc3 hc4

theorem gpuErode_nonneg (tex : ℤ → ℤ → ℝ) (w h x y : ℤ)
    (h0 : ∀ a b, 0 ≤ tex a b) : 0 ≤ gpuErode tex w h x y := by
  rw [gpuErode_eq_foldl]
  apply le_foldl_min
  · rw [texSampleClamped]; exact h0 _ _
  · intro a ha
    obtain ⟨d, hd, rfl⟩ := List.mem_map.mp ha
    rw [texSampleClamped]; exact h0 _ _

theorem gpuDilate_nonneg (tex : ℤ → ℤ → ℝ) (w h x y : ℤ)
    (h0 : ∀ a b, 0 ≤ tex a b) : 0 ≤ gpuDilate tex w h x y := by
  have hb : texSampleClamped tex w h x y ≤ gpuDilate tex w h x y := by
    rw [gpuDilate_eq_foldl]
    exact init_le_foldl_max _ _
  refine le_trans ?_ hb
  rw [texSampleClamped]; exact h0 _ _

end MorphologyLemmas

/-! # Claim C3 -/

/-- Counterexample to C3: on a 1×1 all-foreground mask the GPU erode
returns the foreground value 1 — its `CLAMP_TO_EDGE` sampling reads the
edge pixel for every out-of-bounds neighbor — whereas the claimed
out-of-bounds-as-0 minimum (which the CPU erode implements) is 0. -/
theorem gpu_oob_clamped_cex :
    gpuErode (fun _ _ => 1) 1 1 0 0 = 1 ∧ erodePixel (fun _ _ => 255) 1 1 0 0 = 0 := by
  constructor
  · rw [gpuErode_eq_foldl]
    norm_num [gpuOffsets, texSampleClamped, clampIdx]
  · decide

/-- Claim C3, amended: the CPU `erode`/`dilate` produce the min/max of the
3×3 neighborhood with out-of-bounds neighbors read as 0; the GPU
morphology shader produces the min/max of the 3×3 neighborhood sampled
with `CLAMP_TO_EDGE`, i.e. out-of-bounds neighbors read the nearest edge
pixel instead of 0. -/
theorem morphology_neighborhood_extrema :
    (∀ (input : ℤ → ℤ → ℕ) (w h x y : ℤ), (∀ a b, input a b ≤ 255) →
      (∀ d ∈ cpuOffsets,
        erodePixel input w h x y ≤ getPixel input w h (x + d.1) (y + d.2)) ∧
      (∃ d ∈ cpuOffsets,
        erodePixel input w h x y = getPixel input w h (x + d.1) (y + d.2))) ∧
    (∀ (input : ℤ → ℤ → ℕ) (w h x y : ℤ),
      (∀ d ∈ cpuOffsets,
        getPixel input w h (x + d.1) (y + d.2) ≤ dilatePixel input w h x y) ∧
      (∃ d ∈ cpuOffsets,
        dilatePixel input w h x y = getPixel input w h (x + d.1) (y + d.2))) ∧
    (∀ (tex : ℤ → ℤ → ℝ) (w h x y : ℤ),
      (∀ d ∈ gpuOffsets,
        gpuErode tex w h x y ≤ texSampleClamped tex w h (x + d.1) (y + d.2)) ∧
      (∃ d ∈ gpuOffsets,
        gpuErode tex w h x y = texSampleClamped tex w h (x + d.1) (y + d.2))) ∧
    (∀ (tex : ℤ → ℤ → ℝ) (w h x y : ℤ),
      (∀ d ∈ gpuOffsets,
        texSampleClamped tex w h (x + d.1) (y + d.2) ≤ gpuDilate tex w h x y) ∧
      (∃ d ∈ gpuOffsets,
        gpuDilate tex w h x y = texSampleClamped tex w h (x + d.1) (y + d.2))) := by
  refine ⟨fun input w h x y hb => ⟨fun d hd => ?_, ?_⟩,
    fun input w h x y => ⟨fun d hd => ?_, ?_⟩,
    fun tex w h x y => ⟨fun d hd => ?_, ?_⟩,
    fun tex w h x y => ⟨fun d hd => ?_, ?_⟩⟩
  · rw [erodePixel_eq_foldl]
    exact foldl_min_le_of_mem _ (List.mem_map_of_mem _ hd)
  · rcases foldl_min_mem
        (cpuOffsets.map fun d => getPixel input w h (x + d.1) (y + d.2)) 255 with hm | hm
    · refine ⟨(0, 0), by decide, ?_⟩
      have h1 : erodePixel input w h x y ≤ getPixel input w h (x + 0) (y + 0) := by
        rw [erodePixel_eq_foldl]
        exact foldl_min_le_of_mem _
          (List.mem_map_of_mem _ (show ((0:ℤ), (0:ℤ)) ∈ cpuOffsets by decide))
      have h2 : getPixel input w h (x + 0) (y + 0) ≤ 255 := getPixel_le_255 hb w h _ _
      show erodePixel input w h x y = getPixel input w h (x + 0) (y + 0)
      rw [erodePixel_eq_foldl, hm]
      rw [erodePixel_eq_foldl, hm] at h1
      omega
    · obtain ⟨d, hd, hde⟩ := List.mem_map.mp hm
      exact ⟨d, hd, by rw [erodePixel_eq_foldl, ← hde]⟩
  · rw [dilatePixel_eq_foldl]
    exact le_foldl_max_of_mem _ (List.mem_map_of_mem _ hd)
  · rcases foldl_max_mem
        (cpuOffsets.map fun d => getPixel input w h (x + d.1) (y + d.2)) 0 with hm | hm
    · refine ⟨(0, 0), by decide, ?_⟩
      have h1 : getPixel input w h (x + 0) (y + 0) ≤ dilatePixel input w h x y := by
        rw [dilatePixel_eq_foldl]
        exact le_foldl_max_of_mem _
          (List.mem_map_of_mem _ (show ((0:ℤ), (0:ℤ)) ∈ cpuOffsets by decide))
      show dilatePixel input w h x y = getPixel input w h (x + 0) (y + 0)
      rw [dilatePixel_eq_foldl, hm]
      rw [dilatePixel_eq_foldl, hm] at h1
      omega
    · obtain ⟨d, hd, hde⟩ := List.mem_map.mp hm
      exact ⟨d, hd, by rw [dilatePixel_eq_foldl, ← hde]⟩
  · rw [gpuErode_eq_foldl]
    exact foldl_min_le_of_mem _ (List.mem_map_of_mem _ hd)
  · rcases foldl_min_mem
        (gpuOffsets.map fun d => texSampleClamped tex w h (x + d.1) (y + d.2))
        (texSampleClamped tex w h x y) with hm | hm
    · refine ⟨(0, 0), by decide, ?_⟩
      rw [gpuErode_eq_foldl, hm]
      norm_num
    · obtain ⟨d, hd, hde⟩ := List.mem_map.mp hm
      exact ⟨d, hd, by rw [gpuErode_eq_foldl, ← hde]⟩
  · rw [gpuDilate_eq_foldl]
    exact le_foldl_max_of_mem _ (List.mem_map_of_mem _ hd)
  · rcases foldl_max_mem
        (gpuOffsets.map fun d => texSampleClamped tex w h (x + d.1) (y + d.2))
        (texSampleClamped tex w h x y) with hm | hm
    · refine ⟨(0, 0), by decide, ?_⟩
      rw [gpuDilate_eq_foldl, hm]
      norm_num
    · obtain ⟨d, hd, hde⟩ := List.mem_map.mp hm
      exact ⟨d, hd, by rw [gpuDilate_eq_foldl, ← hde]⟩

/-- Witness for C3 at a concrete mask: the eroded value at an interior
pixel of a constant-200 mask is bounded by its center neighbor. -/
theorem morphology_neighborhood_extrema_witness :
    erodePixel (fun _ _ => 200) 3 3 1 1 ≤ getPixel (fun _ _ => 200) 3 3 (1 + 0) (1 + 0) :=
  (morphology_neighborhood_extrema.1 (fun _ _ => 200) 3 3 1 1
    (fun _ _ => by norm_num)).1 (0, 0) (by decide)

/-! # Claim C8 -/

/-- Counterexample to C8: on the 1×1 all-foreground binary mask, the CPU
`close` (dilate then erode, out-of-bounds as 0) erases the single
foreground pixel: the foreground count drops from 1 to 0. -/
theorem cpu_close_decreases_cex :
    fgCount (applyMorphology (fun _ _ => 255) 1 1 MorphologyMode.mclose) 1 1 = 0 ∧
      fgCount (fun _ _ => 255) 1 1 = 1 := by
  constructor <;> decide

/-- Claim C8, amended: for every binary mask, `open` (erode then dilate)
never increases the number of foreground pixels in either implementation,
and the GPU `close` (dilate then erode with edge-clamped sampling) never
decreases it; the CPU `close`, whose erode reads out-of-bounds neighbors
as 0, can however erase foreground pixels on the image border and so can
decrease the count. -/
theorem morphology_open_close_counts :
    (∀ (m : ℤ → ℤ → ℕ) (w h : ℤ), BinaryMask m →
      fgCount (applyMorphology m w h MorphologyMode.mopen) w h ≤ fgCount m w h) ∧
    (∀ (tex : ℤ → ℤ → ℝ) (w h : ℤ), BinaryMaskR tex →
      fgCountR (gpuDilate (gpuErode tex w h) w h) w h ≤ fgCountR tex w h) ∧
    (∀ (tex : ℤ → ℤ → ℝ) (w h : ℤ), BinaryMaskR tex →
      fgCountR tex w h ≤ fgCountR (gpuErode (gpuDilate tex w h) w h) w h) := by
  refine ⟨fun m w h _ => ?_, fun tex w h hbin => ?_, fun tex w h hbin => ?_⟩
  · apply fgCount_mono
    intro x y hx hxw hy hyh hne
    have hle := cpu_open_le_pointwise m w h x y hx hxw hy hyh
    omega
  · have h0 : ∀ a b, 0 ≤ tex a b := by
      intro a b
      rcases hbin a b with hz | ho
      · rw [hz]
      · rw [ho]; norm_num
    apply fgCountR_mono
    intro x y hx hxw hy hyh hne
    intro htz
    apply hne
    have hle := gpu_open_le_pointwise tex w h x y hx hxw hy hyh
    rw [htz] at hle
    have hge : 0 ≤ gpuDilate (gpuErode tex w h) w h x y :=
      gpuDilate_nonneg _ w h x y (fun a b => gpuErode_nonneg tex w h a b h0)
    linarith
  · apply fgCountR_mono
    intro x y hx hxw hy hyh hne
    have hge := gpu_close_ge_pointwise tex w h x y hx hxw hy hyh
    rcases hbin x y with hz | ho
    · exact absurd hz hne
    · rw [ho] at hge
      intro hcz
      rw [hcz] at hge
      linarith

/-- Witness for C8 on a concrete binary mask: the all-background 2×2 mask
(open does not increase the count) and the all-foreground 2×2 float mask
(GPU close does not decrease the count). -/
theorem morphology_open_close_counts_witness :
    fgCount (applyMorphology (fun _ _ => 255) 2 2 MorphologyMode.mopen) 2 2 ≤
      fgCount (fun _ _ => 255) 2 2 ∧
    fgCountR (fun _ _ => (1:ℝ)) 2 2 ≤
      fgCountR (gpuErode (gpuDilate (fun _ _ => (1:ℝ)) 2 2) 2 2) 2 2 :=
  ⟨morphology_open_close_counts.1 _ 2 2 (fun _ _ => Or.inr rfl),
    morphology_open_close_counts.2.2 _ 2 2 (fun _ _ => Or.inr rfl)⟩

/-! # Claim C5 -/

/-- Claim C5 evaluated at the failing input (code bug in the GPU path):
with `persistence = 0.85`, a previous output pixel of opaque white and a
zero-motion fragment, the GPU persistence tick leaves 0 of the previous
color — `gl.clear` replaces the buffer with `(0,0,0,0.15)` because clears
ignore blending, so nothing of the previous frame survives — while the
claimed behavior (which the CPU `electricTrails` path implements via a
composited `fillRect`) retains `0.85` of it, and `persistence^k` of it
after `k` zero-motion ticks; non-persistence GPU ticks clear to opaque
black and overwrite. -/
theorem persistence_fade_evaluation :
    (gpuPersistenceOutputPixel 0.85 ⟨0, 0, 0, 0⟩ ⟨1, 1, 1, 1⟩).r = 0 ∧
    (canvasFade (1 - 0.85) ⟨1, 1, 1, 1⟩).r = 0.85 ∧
    (∀ (k : ℕ) (p : RGBA), ((canvasFade (1 - 0.85))^[k] p).r = 0.85 ^ k * p.r) ∧
    (∀ frag prev : RGBA, gpuPlainOutputPixel frag prev = frag) := by
  refine ⟨?_, ?_, ?_, fun frag prev => rfl⟩
  · norm_num [gpuPersistenceOutputPixel, blendSrcAlpha, glClearPixel]
  · norm_num [canvasFade, sourceOver]
  · intro k
    induction k with
    | zero => intro p; simp
    | succ n ih =>
      intro p
      rw [Function.iterate_succ_apply, ih]
      simp only [canvasFade, sourceOver]
      ring_nf

end Motion
